import Mathlib

set_option linter.unusedVariables false

namespace INewsFlow

/-! Shallow embedding of the server half of src/public/app.js (the Express
backend, lines 877-1406 of the concatenated file): article identity,
aggregation, likes and comments.  Strings model JS strings; JS falsiness of a
string is emptiness; timestamps are the millisecond values produced by
new Date(s).getTime(), with 0 encoding a missing/empty publishedAt. -/

/-- Model of Node crypto.createHash('sha1').update(s).digest('hex').  The
claims depend only on the digest being a deterministic function of the input
string, so the digest is modelled as a tagged copy of the input rather than
by the SHA-1 bit computation. -/
def sha1Hex (s : String) : String := "sha1:" ++ s

/-- makeIdFromUrl (app.js 979-982): a falsy (empty) URL yields the synthetic
id local_Date.now(); otherwise the SHA-1 hex digest of the URL.  The
parameter now stands for Date.now(). -/
def makeIdFromUrl (now : Nat) (url : String) : String :=
  if url = "" then "local_" ++ toString now else sha1Hex url

/-- JS a || b on strings: the empty string is falsy. -/
def jsOrS (a b : String) : String := if a = "" then b else a

/-- JS a || b on the numeric timestamp encoding, where 0 encodes a
missing/empty value. -/
def jsOrN (a b : Nat) : Nat := if a = 0 then b else a

/-- Model of JS String.prototype.trim: strip whitespace from both ends. -/
def jsTrim (s : String) : String :=
  String.mk (((s.data.dropWhile Char.isWhitespace).reverse.dropWhile
    Char.isWhitespace).reverse)

/-- Order-preserving de-duplication keeping first occurrences: the iteration
order of a JS Set built from a list (used for new Set(array) in the likes
restore and for the category-membership union). -/
def dedupFirst (seen : List String) : List String → List String
  | [] => []
  | a :: rest =>
    if a ∈ seen then dedupFirst seen rest else a :: dedupFirst (a :: seen) rest

/-! ## Comments (commentsDB) -/

/-- One record of commentsDB[articleId].  id and likedBy are Option because
legacy records may lack them; likes is the plain counter field (a record
without it reads as 0: every access in the source is it.likes || 0). -/
structure StoredComment where
  id : Option String
  username : String
  text : String
  createdAt : String
  likedBy : Option (List String)
  likes : Nat
  deriving Repr, DecidableEq

/-- The lazy legacy upgrade inside GET /api/articles/:id/comments
(app.js 1203-1208): a comment without an id gets the SHA-1 digest of
articleId|username|createdAt|text and a likedBy array (kept if present,
else initialized empty).  The route mutates the stored records in place, so
the same function gives the post-read stored state. -/
def upgradeComment (articleId : String) (it : StoredComment) : StoredComment :=
  match it.id with
  | some _ => it
  | none =>
    { it with
      id := some (sha1Hex (articleId ++ "|" ++ it.username ++ "|" ++
        it.createdAt ++ "|" ++ it.text))
      likedBy := some (it.likedBy.getD []) }

/-- The response shape of one comment in the GET comments route. -/
structure CommentView where
  id : Option String
  username : String
  text : String
  createdAt : String
  likedBy : Option (List String)
  likes : Nat
  liked : Bool
  deriving Repr, DecidableEq

/-- app.js 1209-1211: the reported like count is the likedBy length when
likedBy is an array, else the legacy plain count; liked is whether the
viewer (when given) is in likedBy. -/
def viewComment (viewer : Option String) (it : StoredComment) : CommentView :=
  { id := it.id, username := it.username, text := it.text
    createdAt := it.createdAt, likedBy := it.likedBy
    likes := match it.likedBy with
      | some l => l.length
      | none => it.likes
    liked := match viewer, it.likedBy with
      | some u, some l => l.contains u
      | _, _ => false }

/-- GET /api/articles/:id/comments (app.js 1196-1217): returns the comment
views in stored (insertion) order together with the updated stored list
(the route upgrades legacy records in place). -/
def listComments (articleId : String) (viewer : Option String)
    (stored : List StoredComment) : List CommentView × List StoredComment :=
  let upgraded := stored.map (upgradeComment articleId)
  (upgraded.map (viewComment viewer), upgraded)

/-- The outcome of POST /api/articles/:id/comments: 401 without a username,
400 when the trimmed text is empty, success otherwise. -/
inductive AddCommentResult where
  | authError
  | validationError
  | ok (comment : StoredComment)
  deriving Repr, DecidableEq

/-- POST /api/articles/:id/comments (app.js 1223-1236).  createdAt stands for
new Date().toISOString().  The only validation of text in the route is
!text || !text.trim(); the route has no length check (the 300-character
bound exists only in the browser client, app.js line 692). -/
def addComment (articleId : String) (username : Option String) (text : String)
    (createdAt : String) (stored : List StoredComment) :
    AddCommentResult × List StoredComment :=
  match username with
  | none => (.authError, stored)
  | some u =>
    if jsTrim text = "" then (.validationError, stored)
    else
      let item : StoredComment :=
        { id := some (sha1Hex (articleId ++ "|" ++ u ++ "|" ++ createdAt ++
            "|" ++ jsTrim text))
          username := u, text := jsTrim text, createdAt := createdAt
          likedBy := some [], likes := 0 }
      (.ok item, stored ++ [item])

/-! ## Article likes (likesDB) -/

/-- One likesDB entry: a JS Set of usernames in insertion order plus the
separately maintained counter (a JS number, hence Int). -/
structure LikeRecord where
  count : Int
  users : List String
  deriving Repr, DecidableEq

/-- The toggle body of POST /api/articles/:id/like (app.js 1327-1339), acting
on one record (the route creates count 0 / empty set when absent): a user in
the set is removed with the count decremented, otherwise added with the count
incremented; the response carries the new count and the liked flag. -/
def toggleLike (username : String) (r : LikeRecord) : LikeRecord × Int × Bool :=
  if username ∈ r.users then
    (⟨r.count - 1, r.users.erase username⟩, r.count - 1, false)
  else
    (⟨r.count + 1, r.users ++ [username]⟩, r.count + 1, true)

/-- The record state after n successive toggles by the same user. -/
def toggleIter (username : String) : Nat → LikeRecord → LikeRecord
  | 0, r => r
  | n + 1, r => (toggleLike username (toggleIter username n r)).1

/-- The LikeRecord representation invariant: the user set has no duplicates
and the stored counter equals its size. -/
def likeInv (r : LikeRecord) : Prop :=
  r.users.Nodup ∧ r.count = r.users.length

instance (r : LikeRecord) : Decidable (likeInv r) := by
  unfold likeInv; infer_instance

/-- Serialization of one likesDB entry for data.json (app.js 947-952):
the count and the set as an array, Array.from preserving insertion order. -/
def saveLike (r : LikeRecord) : Int × List String := (r.count, r.users)

/-- Restore of one likesDB entry at startup (app.js 919-923):
count: val.count || 0 and users: new Set(val.users || []), where building a
JS Set from an array keeps the first occurrence of each element in order. -/
def loadLike (p : Int × List String) : LikeRecord :=
  ⟨p.1, dedupFirst [] p.2⟩

/-- POST /api/articles/:id/like (app.js 1320-1340) on one record: 401 (none)
without a username, otherwise the toggle applied to the record (the route
creates the empty record lazily). -/
def likeRoute (username : Option String) (r : Option LikeRecord) :
    Option (LikeRecord × Int × Bool) :=
  match username with
  | none => none
  | some u => some (toggleLike u (r.getD ⟨0, []⟩))

/-- dedupFirst keeps exactly the elements not yet seen, in order, when the
input has no duplicates. -/
theorem dedupFirst_of_nodup (l : List String) (seen : List String)
    (hl : l.Nodup) (hd : ∀ x ∈ l, x ∉ seen) : dedupFirst seen l = l := by
  induction l generalizing seen with
  | nil => rfl
  | cons a rest ih =>
    have ha : a ∉ seen := hd a (List.mem_cons_self a rest)
    rw [dedupFirst, if_neg ha]
    have hrest : rest.Nodup := (List.nodup_cons.mp hl).2
    have hanotin : a ∉ rest := (List.nodup_cons.mp hl).1
    congr 1
    refine ih (a :: seen) hrest ?_
    intro x hx hmem
    rcases List.mem_cons.mp hmem with h1 | h2
    · exact hanotin (h1 ▸ hx)
    · exact hd x (List.mem_cons_of_mem a hx) h2

/-- Toggling preserves the count = set-size invariant. -/
theorem toggleLike_inv (u : String) (r : LikeRecord) (h : likeInv r) :
    likeInv (toggleLike u r).1 := by
  obtain ⟨hnd, hc⟩ := h
  by_cases hm : u ∈ r.users
  · simp only [toggleLike, if_pos hm]
    have hpos : 0 < r.users.length := List.length_pos.mpr
      (fun he => by simp [he] at hm)
    refine ⟨hnd.erase u, ?_⟩
    simp only [hc, List.length_erase_of_mem hm]
    omega
  · simp only [toggleLike, if_neg hm]
    refine ⟨?_, ?_⟩
    · exact List.Nodup.append hnd (List.nodup_singleton u)
        (by simpa using fun h => hm h)
    · simp only [List.length_append, hc, List.length_singleton]
      push_cast
      ring

/-- Two toggles by a user not in the set restore the record exactly. -/
theorem toggleLike_double (u : String) (r : LikeRecord) (hu : u ∉ r.users) :
    (toggleLike u (toggleLike u r).1).1 = r := by
  simp only [toggleLike, if_neg hu]
  have hm : u ∈ r.users ++ [u] := List.mem_append_right _ (by simp)
  simp only [if_pos hm]
  have herase : (r.users ++ [u]).erase u = r.users := by
    rw [List.erase_append_right _ hu]
    simp
  simp [herase]

/-- An even number of toggles by a user not in the set is the identity. -/
theorem toggleIter_even (u : String) (r : LikeRecord) (hu : u ∉ r.users)
    (n : Nat) : toggleIter u (2 * n) r = r := by
  induction n with
  | zero => rfl
  | succ k ih =>
    have h2 : 2 * (k + 1) = (2 * k + 1) + 1 := by ring
    rw [h2, toggleIter, toggleIter, ih]
    exact toggleLike_double u r hu

/-! ## News aggregation (GET /api/news, app.js 1020-1178, and the trending
insert, app.js 1355-1383) -/

/-- A raw upstream article as returned by NewsAPI.  publishedAt carries the
millisecond value of new Date(publishedAt || 0).getTime(), with 0 encoding a
missing or empty timestamp; sourceName encodes source?.name with absence as
the empty string. -/
structure RawArticle where
  title : String
  description : String
  urlToImage : String
  url : String
  publishedAt : Nat
  sourceName : String
  deriving Repr, DecidableEq

/-- A raw article tagged with the NewsAPI category it was fetched under
(the apiCategory tag added in app.js 1056, 1092). -/
structure TaggedArticle extends RawArticle where
  apiCategory : String
  deriving Repr, DecidableEq

/-- Front-end category to NewsAPI category (app.js 1026-1031). -/
def categoryMap (c : String) : Option String :=
  if c = "tech" then some "technology"
  else if c = "business" then some "business"
  else if c = "world" then some "general"
  else if c = "sports" then some "sports"
  else none

/-- NewsAPI category back to front-end category (app.js 1034-1039). -/
def reverseMap (c : String) : Option String :=
  if c = "technology" then some "tech"
  else if c = "business" then some "business"
  else if c = "general" then some "world"
  else if c = "sports" then some "sports"
  else none

/-- One articleStore record.  categories, primaryCategory and category are
Option because different code paths write different subsets of these fields:
the news upsert writes categories/primaryCategory, the trending insert writes
only the scalar category. -/
structure StoredArticle where
  id : String
  title : String
  summary : String
  cover : String
  publishedAt : Nat
  url : String
  source : String
  categories : Option (List String)
  primaryCategory : Option String
  category : Option String
  deriving Repr, DecidableEq

/-- The empty object that articleStore[id] || {} yields for an unseen id:
every string field reads as falsy. -/
def emptyStored : StoredArticle :=
  ⟨"", "", "", "", 0, "", "", none, none, none⟩

/-- JS-object stores modelled as insertion-ordered association lists. -/
def alookup {α : Type} : List (String × α) → String → Option α
  | [], _ => none
  | (k, v) :: rest, key => if k = key then some v else alookup rest key

/-- Keyed assignment: overwrite in place, or append a new key. -/
def aset {α : Type} : List (String × α) → String → α → List (String × α)
  | [], key, v => [(key, v)]
  | (k, w) :: rest, key, v =>
    if k = key then (key, v) :: rest else (k, w) :: aset rest key v

abbrev ArticleStore := List (String × StoredArticle)

abbrev LikesDB := List (String × LikeRecord)

/-- The response item built for each article (app.js 1118-1128). -/
structure NewsItem where
  id : String
  title : String
  summary : String
  cover : String
  category : String
  publishedAt : Nat
  likes : Int
  url : String
  source : String
  deriving Repr, DecidableEq

/-- The merged record written by the news upsert (app.js 1105-1115): every
field is merged as incoming || existing; the categories array is the ordered
union of the existing memberships with the sighted front-end category and
the catch-all news category; primaryCategory is overwritten. -/
def mergeArticle (existing : StoredArticle) (id frontendCat : String)
    (n : TaggedArticle) : StoredArticle :=
  { id := id
    title := jsOrS n.title existing.title
    summary := jsOrS n.description existing.summary
    cover := jsOrS n.urlToImage existing.cover
    publishedAt := jsOrN n.publishedAt existing.publishedAt
    url := jsOrS n.url existing.url
    source := jsOrS n.sourceName (jsOrS existing.source "")
    categories := some (dedupFirst []
      (existing.categories.getD [] ++ [frontendCat, "news"]))
    primaryCategory := some frontendCat
    category := existing.category }

/-- The body of the allArticles.map of GET /api/news (app.js 1096-1129): one
sighting is upserted into the article store through mergeArticle and the
response item is built with the like count joined from likesDB. -/
def newsUpsert (now : Nat) (ldb : LikesDB) (category : String)
    (store : ArticleStore) (n : TaggedArticle) : ArticleStore × NewsItem :=
  let id := makeIdFromUrl now n.url
  let existing := (alookup store id).getD emptyStored
  let frontendCat := (reverseMap n.apiCategory).getD "world"
  let merged := mergeArticle existing id frontendCat n
  let count : Int := match alookup ldb id with
    | some lr => lr.count
    | none => 0
  (aset store id merged,
   { id := id, title := n.title, summary := n.description
     cover := n.urlToImage
     category := if category = "news" then frontendCat else category
     publishedAt := n.publishedAt, likes := count, url := n.url
     source := n.sourceName })

/-- The left-to-right fold of newsUpsert over the processed article list,
returning the final store and the response items in order. -/
def buildItems (now : Nat) (ldb : LikesDB) (category : String) :
    ArticleStore → List TaggedArticle → ArticleStore × List NewsItem
  | store, [] => (store, [])
  | store, n :: rest =>
    let sp := newsUpsert now ldb category store n
    let rp := buildItems now ldb category sp.1 rest
    (rp.1, sp.2 :: rp.2)

/-- The sort key of app.js 1067-1070: new Date(publishedAt || 0).getTime(),
i.e. the timestamp with missing encoded as the epoch 0. -/
def dateKey (a : TaggedArticle) : Nat := a.publishedAt

/-- The descending-time comparator of the aggregate sort. -/
def newerFirst (a b : TaggedArticle) : Prop := dateKey b ≤ dateKey a

instance : DecidableRel newerFirst := fun _ _ => Nat.decLe _ _

instance : IsTotal TaggedArticle newerFirst := ⟨fun _ _ => le_total _ _⟩

instance : IsTrans TaggedArticle newerFirst :=
  ⟨fun _ _ _ h1 h2 => le_trans h2 h1⟩

/-- The aggregate sort (app.js 1067-1071): JS Array.prototype.sort is stable,
modelled by the stable insertion sort with the same comparator. -/
def sortByDateDesc (l : List TaggedArticle) : List TaggedArticle :=
  List.insertionSort newerFirst l

/-- The aggregate URL dedup (app.js 1073-1079): records with a falsy URL and
records whose URL was already seen are dropped; seen is the JS Set. -/
def dedupByUrl (seen : List String) : List TaggedArticle → List TaggedArticle
  | [] => []
  | a :: rest =>
    if a.url = "" ∨ a.url ∈ seen then dedupByUrl seen rest
    else a :: dedupByUrl (a.url :: seen) rest

/-- The four upstream categories fetched for the aggregate page
(app.js 1045). -/
def categoriesToFetch : List String :=
  ["technology", "business", "general", "sports"]

/-- A FeedSource: the upstream fetch for one NewsAPI category; the error case
models a thrown httpJSON failure (network error, timeout or non-2xx). -/
abbrev Fetcher := String → Except String (List RawArticle)

/-- The aggregate fan-out (app.js 1046-1064): every per-category failure is
caught inside the loop and contributes the empty list. -/
def aggregateFetch (fetch : Fetcher) : List TaggedArticle :=
  (categoriesToFetch.map (fun cat =>
    match fetch cat with
    | .ok arts => arts.map (fun a => { toRawArticle := a, apiCategory := cat })
    | .error _ => [])).flatten

/-- The aggregate branch after fetch: sort newest first, then dedup by URL. -/
def newsProcessed (fetch : Fetcher) : List TaggedArticle :=
  dedupByUrl [] (sortByDateDesc (aggregateFetch fetch))

/-- The category filter (app.js 1131-1138): for a non-aggregate category only
items whose stored record has a categories array containing the requested
category survive (reading the store after all upserts). -/
def filterByCategory (category : String) (store : ArticleStore)
    (items : List NewsItem) : List NewsItem :=
  if category = "news" then items
  else items.filter (fun item =>
    match alookup store item.id with
    | some stored =>
      match stored.categories with
      | some cs => cs.contains category
      | none => false
    | none => false)

/-- JS array.slice(start, stop) for natural indices: elements with index in
[start, stop). -/
def jsSlice (l : List NewsItem) (start stop : Nat) : List NewsItem :=
  (l.take stop).drop start

structure NewsResponse where
  items : List NewsItem
  totalResults : Nat
  deriving Repr, DecidableEq

/-- The pagination block (app.js 1141-1143, 1150): slice
[(page-1)*pageSize, (page-1)*pageSize + pageSize) of the filtered items;
totalResults is the length of the whole filtered list. -/
def paginateItems (page pageSize : Nat) (l : List NewsItem) : NewsResponse :=
  { items := jsSlice l ((page - 1) * pageSize) ((page - 1) * pageSize + pageSize)
    totalResults := l.length }

/-- The offline fallback of the outer catch (app.js 1154-1176): two
placeholder items; their publishedAt is the request time and they carry no
source field. -/
def fallbackResponse (category : String) (now : Nat) : NewsResponse :=
  { items :=
      [{ id := "local_" ++ toString now ++ "_1"
         title := "示例文章 - " ++ category ++ " - 1"
         summary := "这是分类 " ++ category ++ " 的示例摘要，用于离线展示。"
         cover := "", category := category, publishedAt := now, likes := 0
         url := "", source := "" },
       { id := "local_" ++ toString now ++ "_2"
         title := "示例文章 - " ++ category ++ " - 2"
         summary := "第二条示例内容，帮助测试分类过滤。"
         cover := "", category := category, publishedAt := now, likes := 0
         url := "", source := "" }]
    totalResults := 2 }

/-- The fetch-and-upsert phase of GET /api/news: none models a throw that
reaches the outer catch, which can only come from the single-category
httpJSON call (per-category failures of the aggregate branch are caught in
the loop). -/
def newsPipeline (fetch : Fetcher) (now : Nat) (ldb : LikesDB)
    (store : ArticleStore) (category : String) :
    Option (ArticleStore × List NewsItem) :=
  if category = "news" then
    some (buildItems now ldb category store (newsProcessed fetch))
  else
    match fetch ((categoryMap category).getD "general") with
    | .error _ => none
    | .ok arts =>
      some (buildItems now ldb category store
        (arts.map (fun a =>
          { toRawArticle := a
            apiCategory := (categoryMap category).getD "general" })))

/-- GET /api/news (app.js 1020-1178): on upstream failure of the
single-category branch the outer catch answers the fallback sample and the
store is untouched; otherwise the filtered items are paginated. -/
def apiNews (fetch : Fetcher) (now : Nat) (ldb : LikesDB)
    (store : ArticleStore) (category : String) (page pageSize : Nat) :
    NewsResponse × ArticleStore :=
  match newsPipeline fetch now ldb store category with
  | none => (fallbackResponse category now, store)
  | some sr =>
    (paginateItems page pageSize (filterByCategory category sr.1 sr.2), sr.1)

/-- The first-sighting insert of GET /api/trending (app.js 1355-1372): an
unseen id is stored with only the scalar category field (no categories
array and no primaryCategory); a known id is left untouched. -/
def trendingUpsert (now : Nat) (store : ArticleStore) (n : RawArticle) :
    ArticleStore :=
  let id := makeIdFromUrl now n.url
  match alookup store id with
  | some _ => store
  | none =>
    aset store id
      { id := id, title := n.title, summary := n.description
        cover := n.urlToImage, publishedAt := n.publishedAt, url := n.url
        source := n.sourceName, categories := none, primaryCategory := none
        category := some "tech" }

/-! ## Helper lemmas -/

theorem mem_dedupFirst (x : String) (seen l : List String) :
    x ∈ dedupFirst seen l ↔ x ∈ l ∧ x ∉ seen := by
  induction l generalizing seen with
  | nil => simp [dedupFirst]
  | cons a rest ih =>
    by_cases ha : a ∈ seen
    · rw [dedupFirst, if_pos ha, ih]
      constructor
      · rintro ⟨hx, hs⟩
        exact ⟨List.mem_cons_of_mem a hx, hs⟩
      · rintro ⟨hx, hs⟩
        rcases List.mem_cons.mp hx with h1 | h2
        · exact absurd (h1 ▸ ha) hs
        · exact ⟨h2, hs⟩
    · rw [dedupFirst, if_neg ha]
      constructor
      · intro hx
        rcases List.mem_cons.mp hx with h1 | h2
        · exact ⟨h1 ▸ List.mem_cons_self a rest, h1 ▸ ha⟩
        · have h3 := (ih (a :: seen)).mp h2
          exact ⟨List.mem_cons_of_mem a h3.1,
            fun hs => h3.2 (List.mem_cons_of_mem a hs)⟩
      · rintro ⟨hx, hs⟩
        by_cases hxa : x = a
        · exact hxa ▸ List.mem_cons_self a _
        · rcases List.mem_cons.mp hx with h1 | h2
          · exact absurd h1 hxa
          · refine List.mem_cons_of_mem a ((ih (a :: seen)).mpr ⟨h2, ?_⟩)
            intro hmem
            rcases List.mem_cons.mp hmem with h3 | h4
            · exact hxa h3
            · exact hs h4

theorem nodup_dedupFirst (seen l : List String) :
    (dedupFirst seen l).Nodup := by
  induction l generalizing seen with
  | nil => simp [dedupFirst]
  | cons a rest ih =>
    by_cases ha : a ∈ seen
    · rw [dedupFirst, if_pos ha]
      exact ih seen
    · rw [dedupFirst, if_neg ha]
      refine List.nodup_cons.mpr ⟨?_, ih (a :: seen)⟩
      intro hmem
      exact ((mem_dedupFirst a (a :: seen) rest).mp hmem).2
        (List.mem_cons_self a seen)

theorem dedupFirst_eq_nil (seen m : List String)
    (h : ∀ x ∈ m, x ∈ seen) : dedupFirst seen m = [] := by
  induction m with
  | nil => rfl
  | cons a rest ih =>
    rw [dedupFirst, if_pos (h a (List.mem_cons_self a rest))]
    exact ih (fun x hx => h x (List.mem_cons_of_mem a hx))

/-- Adding already-present elements to the end of a duplicate-free list and
re-deduplicating gives the list back. -/
theorem dedupFirst_append_absorb (l extra seen : List String) (hnd : l.Nodup)
    (hsub : ∀ x ∈ extra, x ∈ l ∨ x ∈ seen) (hdis : ∀ x ∈ l, x ∉ seen) :
    dedupFirst seen (l ++ extra) = l := by
  induction l generalizing seen with
  | nil =>
    refine dedupFirst_eq_nil seen extra ?_
    intro x hx
    rcases hsub x hx with h1 | h2
    · simp at h1
    · exact h2
  | cons a rest ih =>
    rw [List.cons_append, dedupFirst,
      if_neg (hdis a (List.mem_cons_self a rest))]
    congr 1
    have hnr := List.nodup_cons.mp hnd
    refine ih (a :: seen) hnr.2 ?_ ?_
    · intro x hx
      rcases hsub x hx with h1 | h2
      · rcases List.mem_cons.mp h1 with h3 | h4
        · exact Or.inr (h3 ▸ List.mem_cons_self a seen)
        · exact Or.inl h4
      · exact Or.inr (List.mem_cons_of_mem a h2)
    · intro x hx hmem
      rcases List.mem_cons.mp hmem with h3 | h4
      · exact hnr.1 (h3 ▸ hx)
      · exact hdis x (List.mem_cons_of_mem a hx) h4

theorem alookup_aset_self {α : Type} (s : List (String × α)) (k : String)
    (v : α) : alookup (aset s k v) k = some v := by
  induction s with
  | nil => simp [aset, alookup]
  | cons p rest ih =>
    by_cases h : p.1 = k
    · simp [aset, h, alookup]
    · simp [aset, h, alookup, ih]

theorem alookup_aset_other {α : Type} (s : List (String × α)) (k k' : String)
    (v : α) (hne : k ≠ k') : alookup (aset s k v) k' = alookup s k' := by
  induction s with
  | nil => simp [aset, alookup, hne]
  | cons p rest ih =>
    by_cases h : p.1 = k
    · simp [aset, h, alookup, hne]
    · simp [aset, h, alookup, ih]

theorem aset_aset {α : Type} (s : List (String × α)) (k : String) (v w : α) :
    aset (aset s k v) k w = aset s k w := by
  induction s with
  | nil => simp [aset]
  | cons p rest ih =>
    by_cases h : p.1 = k
    · simp [aset, h]
    · simp [aset, h, ih]

theorem jsOrS_absorb (a b : String) : jsOrS a (jsOrS a b) = jsOrS a b := by
  by_cases h : a = "" <;> simp [jsOrS, h]

theorem jsOrS_empty_right (a : String) : jsOrS a "" = a := by
  by_cases h : a = "" <;> simp [jsOrS, h]

theorem jsOrN_absorb (a b : Nat) : jsOrN a (jsOrN a b) = jsOrN a b := by
  by_cases h : a = 0 <;> simp [jsOrN, h]

/-- A FeedSource that always fails, as in the degraded-mode scenario. -/
def failFetcher : Fetcher := fun _ => .error "network error"

/-- C3 counterexample: with every upstream fetch failing, the aggregate news
listing answers successfully but with an EMPTY item list (each per-category
failure is swallowed to an empty array inside the fan-out loop, so the outer
catch that produces the placeholder sample is never reached), refuting the
claim that the item sequence is then a non-empty set of placeholders. -/
theorem C3_aggregate_all_fail_empty :
    (apiNews failFetcher 1000 [] [] "news" 1 10).1.items = [] ∧
    (apiNews failFetcher 1000 [] [] "news" 1 10).1.totalResults = 0 := by
  exact ⟨rfl, rfl⟩

/-- C3 (amended): when every upstream fetch fails, the aggregate news
category answers successfully with an empty item list and an untouched store,
while a non-aggregate category reaches the outer catch and answers the
two-item placeholder sample (non-empty). -/
theorem C3_degraded_mode (fetch : Fetcher)
    (hfail : ∀ c, ∃ e, fetch c = .error e) (now : Nat) (ldb : LikesDB)
    (store : ArticleStore) (category : String) (page pageSize : Nat) :
    (apiNews fetch now ldb store "news" page pageSize).1.items = [] ∧
    (apiNews fetch now ldb store "news" page pageSize).2 = store ∧
    (category ≠ "news" →
      (apiNews fetch now ldb store category page pageSize).1
        = fallbackResponse category now ∧
      (apiNews fetch now ldb store category page pageSize).1.items.length
        = 2 ∧
      (apiNews fetch now ldb store category page pageSize).1.items ≠ []) := by
  have hagg : aggregateFetch fetch = [] := by
    obtain ⟨e1, h1⟩ := hfail "technology"
    obtain ⟨e2, h2⟩ := hfail "business"
    obtain ⟨e3, h3⟩ := hfail "general"
    obtain ⟨e4, h4⟩ := hfail "sports"
    simp [aggregateFetch, categoriesToFetch, h1, h2, h3, h4]
  have hproc : newsProcessed fetch = [] := by
    simp [newsProcessed, hagg, sortByDateDesc, dedupByUrl]
  refine ⟨?_, ?_, ?_⟩
  · simp [apiNews, newsPipeline, hproc, buildItems, filterByCategory,
      paginateItems, jsSlice]
  · simp [apiNews, newsPipeline, hproc, buildItems]
  · intro hc
    obtain ⟨e, he⟩ := hfail ((categoryMap category).getD "general")
    refine ⟨?_, ?_, ?_⟩ <;>
      simp [apiNews, newsPipeline, hc, he, fallbackResponse]

/-- C3 witness: the degraded-mode theorem at the always-failing fetcher. -/
theorem C3_degraded_mode_witness :
    (apiNews failFetcher 5 [] [] "news" 1 10).1.items = [] ∧
    (apiNews failFetcher 5 [] [] "tech" 1 10).1.items.length = 2 :=
  ⟨(C3_degraded_mode failFetcher (fun _ => ⟨"network error", rfl⟩) 5 [] []
      "tech" 1 10).1,
   ((C3_degraded_mode failFetcher (fun _ => ⟨"network error", rfl⟩) 5 [] []
      "tech" 1 10).2.2 (by decide)).2.1⟩

/-- C5 counterexample: upserting an incoming record whose title is the
populated value B over an existing record whose title is the populated value
A stores B: the incoming value wins when both are populated, refuting the
claim that the existing value is kept. -/
theorem C5_incoming_overwrites_populated :
    ((alookup (newsUpsert 7 [] "tech"
        [(sha1Hex "http://x",
          { emptyStored with
            id := sha1Hex "http://x", title := "A", url := "http://x" })]
        { title := "B", description := "", urlToImage := "", url := "http://x"
          publishedAt := 0, sourceName := "", apiCategory := "technology"
          }).1
      (sha1Hex "http://x")).map StoredArticle.title) = some "B" ∧
    "B" ≠ "A" := by
  exact ⟨rfl, by decide⟩

/-- C5 (amended): in the upsert merge each field takes the INCOMING value
whenever it is truthy and falls back to the existing stored value otherwise;
consequently an empty incoming value never erases a populated existing one,
and upserting the same id twice with identical fields leaves the store
unchanged. -/
theorem C5_merge_policy (now : Nat) (ldb : LikesDB) (cat : String)
    (store : ArticleStore) (n : TaggedArticle) :
    (alookup (newsUpsert now ldb cat store n).1 (makeIdFromUrl now n.url)
      = some (mergeArticle
          ((alookup store (makeIdFromUrl now n.url)).getD emptyStored)
          (makeIdFromUrl now n.url) ((reverseMap n.apiCategory).getD "world")
          n)) ∧
    (∀ e id fc,
      (mergeArticle e id fc n).title
          = (if n.title = "" then e.title else n.title) ∧
      (mergeArticle e id fc n).summary
          = (if n.description = "" then e.summary else n.description) ∧
      (mergeArticle e id fc n).cover
          = (if n.urlToImage = "" then e.cover else n.urlToImage) ∧
      (mergeArticle e id fc n).publishedAt
          = (if n.publishedAt = 0 then e.publishedAt else n.publishedAt) ∧
      (mergeArticle e id fc n).url = (if n.url = "" then e.url else n.url) ∧
      (mergeArticle e id fc n).source
          = (if n.sourceName = "" then e.source else n.sourceName)) ∧
    (newsUpsert now ldb cat (newsUpsert now ldb cat store n).1 n).1
      = (newsUpsert now ldb cat store n).1 := by
  refine ⟨?_, ?_, ?_⟩
  · simp only [newsUpsert]
    exact alookup_aset_self store _ _
  · intro e id fc
    refine ⟨rfl, rfl, rfl, rfl, rfl, ?_⟩
    simp only [mergeArticle, jsOrS_empty_right]
    rfl
  · simp only [newsUpsert, alookup_aset_self, Option.getD_some, aset_aset]
    congr 1
    have habsorb : ∀ e : StoredArticle, ∀ id fc,
        mergeArticle (mergeArticle e id fc n) id fc n
          = mergeArticle e id fc n := by
      intro e id fc
      have hfc : fc ∈ dedupFirst [] (e.categories.getD [] ++ [fc, "news"]) :=
        (mem_dedupFirst fc [] _).mpr ⟨by simp, by simp⟩
      have hnews :
          "news" ∈ dedupFirst [] (e.categories.getD [] ++ [fc, "news"]) :=
        (mem_dedupFirst "news" [] _).mpr ⟨by simp, by simp⟩
      have hcat : dedupFirst []
          (dedupFirst [] (e.categories.getD [] ++ [fc, "news"])
            ++ [fc, "news"])
          = dedupFirst [] (e.categories.getD [] ++ [fc, "news"]) := by
        refine dedupFirst_append_absorb _ _ _ (nodup_dedupFirst _ _) ?_
          (by simp)
        intro x hx
        rcases List.mem_cons.mp hx with h1 | h2
        · exact Or.inl (h1 ▸ hfc)
        · simp only [List.mem_singleton] at h2
          exact Or.inl (h2 ▸ hnews)
      simp only [mergeArticle, jsOrS_absorb, jsOrN_absorb, jsOrS_empty_right,
        Option.getD_some, hcat]
    exact habsorb _ _ _

/-- C7 counterexample: the trending endpoint creates an article record with
NO categories array at all (only the scalar category field), refuting the
claim that every record held in the store after any creating/updating
operation has a non-empty category membership set containing news. -/
theorem C7_trending_record_no_categories :
    ((alookup (trendingUpsert 3 [] ⟨"T", "", "", "http://t", 0, ""⟩)
        (sha1Hex "http://t")).map StoredArticle.categories) = some none := by
  rfl

/-- C7 (amended): every record created or updated by the news-listing upsert
has a non-empty categories array containing both the sighted front-end
category and the catch-all news category; records created by the trending
endpoint, however, carry no categories array at all. -/
theorem C7_categories_membership (now : Nat) (ldb : LikesDB) (cat : String)
    (store : ArticleStore) (n : TaggedArticle) (m : RawArticle) :
    (∃ a cs,
      alookup (newsUpsert now ldb cat store n).1 (makeIdFromUrl now n.url)
        = some a ∧
      a.categories = some cs ∧
      ((reverseMap n.apiCategory).getD "world") ∈ cs ∧ "news" ∈ cs ∧
      cs ≠ []) ∧
    (alookup store (makeIdFromUrl now m.url) = none →
      ∃ t, alookup (trendingUpsert now store m) (makeIdFromUrl now m.url)
          = some t ∧
        t.categories = none) := by
  constructor
  · have hl : alookup (newsUpsert now ldb cat store n).1
        (makeIdFromUrl now n.url)
        = some (mergeArticle
            ((alookup store (makeIdFromUrl now n.url)).getD emptyStored)
            (makeIdFromUrl now n.url)
            ((reverseMap n.apiCategory).getD "world") n) := by
      simp only [newsUpsert]
      exact alookup_aset_self store _ _
    refine ⟨_, _, hl, rfl, ?_, ?_, ?_⟩
    · exact (mem_dedupFirst _ [] _).mpr ⟨by simp, by simp⟩
    · exact (mem_dedupFirst _ [] _).mpr ⟨by simp, by simp⟩
    · intro hnil
      have h2 : "news" ∈ dedupFirst []
          (((alookup store (makeIdFromUrl now n.url)).getD
              emptyStored).categories.getD []
            ++ [(reverseMap n.apiCategory).getD "world", "news"]) :=
        (mem_dedupFirst _ [] _).mpr ⟨by simp, by simp⟩
      rw [hnil] at h2
      simp at h2
  · intro hnone
    have hl : alookup (trendingUpsert now store m) (makeIdFromUrl now m.url)
        = some
          { id := makeIdFromUrl now m.url, title := m.title
            summary := m.description, cover := m.urlToImage
            publishedAt := m.publishedAt, url := m.url
            source := m.sourceName, categories := none
            primaryCategory := none, category := some "tech" } := by
      simp only [trendingUpsert, hnone]
      exact alookup_aset_self store _ _
    exact ⟨_, hl, rfl⟩

/-- C7 witness: the amended theorem at a concrete unseen trending article. -/
theorem C7_categories_membership_witness :
    ∃ t, alookup
        (trendingUpsert 4 [] ⟨"T", "d", "", "http://w", 9, "src"⟩)
        (makeIdFromUrl 4 "http://w") = some t ∧ t.categories = none :=
  (C7_categories_membership 4 [] "tech" []
    { title := "x", description := "", urlToImage := "", url := "http://y"
      publishedAt := 0, sourceName := "", apiCategory := "technology" }
    ⟨"T", "d", "", "http://w", 9, "src"⟩).2 rfl

theorem mem_dedupByUrl (a : TaggedArticle) (seen : List String)
    (l : List TaggedArticle) (h : a ∈ dedupByUrl seen l) :
    a ∈ l ∧ a.url ∉ seen ∧ a.url ≠ "" := by
  induction l generalizing seen with
  | nil => simp [dedupByUrl] at h
  | cons b rest ih =>
    by_cases hdrop : b.url = "" ∨ b.url ∈ seen
    · simp only [dedupByUrl, if_pos hdrop] at h
      have h3 := ih seen h
      exact ⟨List.mem_cons_of_mem b h3.1, h3.2⟩
    · simp only [dedupByUrl, if_neg hdrop] at h
      push_neg at hdrop
      rcases List.mem_cons.mp h with h1 | h2
      · exact ⟨h1 ▸ List.mem_cons_self b rest, h1 ▸ hdrop.2, h1 ▸ hdrop.1⟩
      · have h3 := ih (b.url :: seen) h2
        exact ⟨List.mem_cons_of_mem b h3.1,
          fun hs => h3.2.1 (List.mem_cons_of_mem _ hs), h3.2.2⟩

theorem dedupByUrl_sublist (seen : List String) (l : List TaggedArticle) :
    List.Sublist (dedupByUrl seen l) l := by
  induction l generalizing seen with
  | nil => simp [dedupByUrl]
  | cons a rest ih =>
    by_cases hdrop : a.url = "" ∨ a.url ∈ seen
    · simp only [dedupByUrl, if_pos hdrop]
      exact (ih seen).trans (List.sublist_cons_self a rest)
    · simp only [dedupByUrl, if_neg hdrop]
      exact List.Sublist.cons₂ a (ih (a.url :: seen))

theorem pairwise_url_dedupByUrl (seen : List String)
    (l : List TaggedArticle) :
    List.Pairwise (fun a b => a.url ≠ b.url) (dedupByUrl seen l) := by
  induction l generalizing seen with
  | nil => simp [dedupByUrl]
  | cons a rest ih =>
    by_cases hdrop : a.url = "" ∨ a.url ∈ seen
    · simp only [dedupByUrl, if_pos hdrop]
      exact ih seen
    · simp only [dedupByUrl, if_neg hdrop]
      refine List.pairwise_cons.mpr ⟨?_, ih (a.url :: seen)⟩
      intro b hb hab
      exact (mem_dedupByUrl b _ _ hb).2.1 (hab ▸ List.mem_cons_self _ _)

theorem countP_dedupByUrl_zero (u : String) (seen : List String)
    (l : List TaggedArticle) (hu : u ∈ seen) :
    (dedupByUrl seen l).countP (fun a => a.url == u) = 0 := by
  rw [List.countP_eq_zero]
  intro a ha
  have hmem := mem_dedupByUrl a seen l ha
  simp only [beq_iff_eq]
  intro heq
  exact hmem.2.1 (heq ▸ hu)

/-- The URL dedup keeps exactly one record per distinct non-empty URL that
occurs in its input. -/
theorem countP_dedupByUrl (u : String) (seen : List String)
    (l : List TaggedArticle) (hu : u ≠ "") (hs : u ∉ seen) :
    (dedupByUrl seen l).countP (fun a => a.url == u)
      = if l.any (fun a => a.url == u) = true then 1 else 0 := by
  induction l generalizing seen with
  | nil => simp [dedupByUrl]
  | cons a rest ih =>
    by_cases hdrop : a.url = "" ∨ a.url ∈ seen
    · have hau : a.url ≠ u := by
        rcases hdrop with h1 | h2
        · exact fun he => hu (he ▸ h1)
        · exact fun he => hs (he ▸ h2)
      simp only [dedupByUrl, if_pos hdrop]
      rw [ih seen hs]
      simp [List.any_cons, hau]
    · push_neg at hdrop
      simp only [dedupByUrl, if_neg (by push_neg; exact hdrop :
        ¬(a.url = "" ∨ a.url ∈ seen))]
      by_cases hau : a.url = u
      · rw [List.countP_cons]
        rw [countP_dedupByUrl_zero u (a.url :: seen) rest
          (hau ▸ List.mem_cons_self _ _)]
        simp [List.any_cons, hau]
      · rw [List.countP_cons]
        have h5 : u ∉ a.url :: seen := by
          intro hmem
          rcases List.mem_cons.mp hmem with h6 | h7
          · exact hau h6.symm
          · exact hs h7
        rw [ih (a.url :: seen) h5]
        simp [List.any_cons, hau]

/-- The record the dedup keeps for a URL is the first record with that URL
in its input sequence. -/
theorem find?_dedupByUrl (u : String) (seen : List String)
    (l : List TaggedArticle) (hu : u ≠ "") (hs : u ∉ seen) :
    (dedupByUrl seen l).find? (fun a => a.url == u)
      = l.find? (fun a => a.url == u) := by
  induction l generalizing seen with
  | nil => simp [dedupByUrl]
  | cons a rest ih =>
    by_cases hau : a.url = u
    · have hkeep : ¬(a.url = "" ∨ a.url ∈ seen) := by
        push_neg
        exact ⟨hau ▸ hu, hau ▸ hs⟩
      simp only [dedupByUrl, if_neg hkeep]
      rw [List.find?_cons_of_pos _ (by simp [hau]),
        List.find?_cons_of_pos _ (by simp [hau])]
    · by_cases hdrop : a.url = "" ∨ a.url ∈ seen
      · simp only [dedupByUrl, if_pos hdrop]
        rw [List.find?_cons_of_neg _ (by simp [hau])]
        exact ih seen hs
      · simp only [dedupByUrl, if_neg hdrop]
        rw [List.find?_cons_of_neg _ (by simp [hau]),
          List.find?_cons_of_neg _ (by simp [hau])]
        refine ih (a.url :: seen) ?_
        intro hmem
        rcases List.mem_cons.mp hmem with h6 | h7
        · exact hau h6.symm
        · exact hs h7

/-- C8: the aggregate news listing is sorted descending by publication
timestamp (a missing timestamp sorting as the epoch 0), holds pairwise
distinct non-empty URLs, keeps exactly one record per URL present upstream,
and the kept record is the first occurrence of that URL in the time-sorted
sequence. -/
theorem C8_aggregate_dedup_sorted (fetch : Fetcher) (u : String)
    (hu : u ≠ "") (hin : ∃ a ∈ aggregateFetch fetch, a.url = u) :
    List.Sorted newerFirst (newsProcessed fetch) ∧
    List.Pairwise (fun a b => a.url ≠ b.url) (newsProcessed fetch) ∧
    (∀ a ∈ newsProcessed fetch, a.url ≠ "") ∧
    (newsProcessed fetch).countP (fun a => a.url == u) = 1 ∧
    (newsProcessed fetch).find? (fun a => a.url == u)
      = (sortByDateDesc (aggregateFetch fetch)).find?
          (fun a => a.url == u) := by
  refine ⟨?_, pairwise_url_dedupByUrl [] _, ?_, ?_,
    find?_dedupByUrl u [] _ hu (by simp)⟩
  · exact List.Pairwise.sublist (dedupByUrl_sublist [] _)
      (List.sorted_insertionSort newerFirst _)
  · intro a ha
    exact (mem_dedupByUrl a [] _ ha).2.2
  · show (dedupByUrl [] (sortByDateDesc (aggregateFetch fetch))).countP
      (fun a => a.url == u) = 1
    rw [countP_dedupByUrl u [] _ hu (by simp)]
    obtain ⟨a, hal, hau⟩ := hin
    have hmem : a ∈ sortByDateDesc (aggregateFetch fetch) :=
      ((List.perm_insertionSort newerFirst _).mem_iff).mpr hal
    have hany : (sortByDateDesc (aggregateFetch fetch)).any
        (fun x => x.url == u) = true :=
      List.any_eq_true.mpr ⟨a, hmem, by simp [hau]⟩
    rw [if_pos hany]

/-- A FeedSource on which two upstream categories return a record with the
same URL. -/
def dupFetcher : Fetcher := fun c =>
  if c = "technology" then
    .ok [{ title := "t1", description := "", urlToImage := ""
           url := "http://dup", publishedAt := 5, sourceName := "" }]
  else if c = "business" then
    .ok [{ title := "t2", description := "", urlToImage := ""
           url := "http://dup", publishedAt := 3, sourceName := "" }]
  else .error "down"

/-- C8 witness: two upstream categories both returning a record with the same
URL yield exactly one item in the aggregate listing. -/
theorem C8_aggregate_dedup_sorted_witness :
    (newsProcessed dupFetcher).countP
      (fun a => a.url == "http://dup") = 1 :=
  (C8_aggregate_dedup_sorted dupFetcher "http://dup" (by decide)
    ⟨⟨⟨"t1", "", "", "http://dup", 5, ""⟩, "technology"⟩, by decide,
      rfl⟩).2.2.2.1

theorem paginateItems_items (page pageSize : Nat) (l : List NewsItem) :
    (paginateItems page pageSize l).items
      = (l.drop ((page - 1) * pageSize)).take pageSize := by
  simp only [paginateItems, jsSlice]
  rw [List.take_drop]

/-- C9: pagination slices [(page-1)*pageSize, (page-1)*pageSize + pageSize)
of the filtered list; totalResults is the size of the whole filtered list,
independent of the requested page; a page beyond the end yields an empty
item list rather than failing; and on a 25-item filtered list with pageSize
10, page 1 yields items [0..10) and page 3 yields items [20..25) (5 items)
with totalResults 25. -/
theorem C9_pagination (l : List NewsItem) (page pageSize : Nat)
    (hp : 1 ≤ page) :
    (paginateItems page pageSize l).totalResults = l.length ∧
    (paginateItems page pageSize l).items
      = (l.drop ((page - 1) * pageSize)).take pageSize ∧
    (l.length ≤ (page - 1) * pageSize →
      (paginateItems page pageSize l).items = []) ∧
    (l.length = 25 →
      (paginateItems 1 10 l).items = l.take 10 ∧
      (paginateItems 3 10 l).items = l.drop 20 ∧
      (paginateItems 3 10 l).items.length = 5 ∧
      (paginateItems 3 10 l).totalResults = 25) := by
  refine ⟨rfl, paginateItems_items page pageSize l, ?_, ?_⟩
  · intro hbeyond
    rw [paginateItems_items, List.drop_eq_nil_of_le hbeyond, List.take_nil]
  · intro h25
    have h3 : (paginateItems 3 10 l).items = l.drop 20 := by
      rw [paginateItems_items]
      norm_num
      omega
    refine ⟨?_, h3, ?_, ?_⟩
    · rw [paginateItems_items]
      norm_num
    · rw [h3, List.length_drop, h25]
    · simp [paginateItems, h25]

/-- The 25-item filtered list used to witness the pagination properties. -/
def sampleItems : List NewsItem :=
  (List.range 25).map
    (fun i => ⟨toString i, "", "", "", "tech", 0, 0, "", ""⟩)

/-- C9 witness: the pagination theorem at the concrete 25-item list. -/
theorem C9_pagination_witness :
    (paginateItems 3 10 sampleItems).items.length = 5 ∧
    (paginateItems 3 10 sampleItems).totalResults = 25 ∧
    (paginateItems 1 10 sampleItems).items = sampleItems.take 10 :=
  ⟨((C9_pagination sampleItems 3 10 (by decide)).2.2.2 (by decide)).2.2.1,
   ((C9_pagination sampleItems 3 10 (by decide)).2.2.2 (by decide)).2.2.2,
   ((C9_pagination sampleItems 1 10 (by decide)).2.2.2 (by decide)).1⟩

theorem buildItems_cons (now : Nat) (ldb : LikesDB) (cat : String)
    (store : ArticleStore) (a : TaggedArticle) (rest : List TaggedArticle) :
    buildItems now ldb cat store (a :: rest)
      = ((buildItems now ldb cat (newsUpsert now ldb cat store a).1 rest).1,
        (newsUpsert now ldb cat store a).2
          :: (buildItems now ldb cat
              (newsUpsert now ldb cat store a).1 rest).2) := rfl

/-- Keys not hit by any upsert of the batch are left untouched. -/
theorem buildItems_store_untouched (now : Nat) (ldb : LikesDB) (cat : String)
    (l : List TaggedArticle) (store : ArticleStore) (k : String)
    (h : ∀ a ∈ l, makeIdFromUrl now a.url ≠ k) :
    alookup (buildItems now ldb cat store l).1 k = alookup store k := by
  induction l generalizing store with
  | nil => rfl
  | cons a rest ih =>
    rw [buildItems_cons]
    have h2 := ih (newsUpsert now ldb cat store a).1
      (fun x hx => h x (List.mem_cons_of_mem a hx))
    rw [h2]
    simp only [newsUpsert]
    exact alookup_aset_other store _ k _ (h a (List.mem_cons_self a rest))

/-- Every item produced by the upsert batch carries the id derived from its
source record's URL and that record's URL. -/
theorem buildItems_item_of_mem (now : Nat) (ldb : LikesDB) (cat : String)
    (l : List TaggedArticle) (store : ArticleStore) (a : TaggedArticle)
    (ha : a ∈ l) :
    ∃ it ∈ (buildItems now ldb cat store l).2,
      it.id = makeIdFromUrl now a.url ∧ it.url = a.url := by
  induction l generalizing store with
  | nil => simp at ha
  | cons b rest ih =>
    rw [buildItems_cons]
    rcases List.mem_cons.mp ha with h1 | h2
    · subst h1
      exact ⟨(newsUpsert now ldb cat store a).2,
        List.mem_cons_self _ _, rfl, rfl⟩
    · obtain ⟨it, hit, hprop⟩ := ih (newsUpsert now ldb cat store b).1 h2
      exact ⟨it, List.mem_cons_of_mem _ hit, hprop⟩

/-- Conversely, every produced item's URL is the URL of some source record of
the batch. -/
theorem buildItems_item_src (now : Nat) (ldb : LikesDB) (cat : String)
    (l : List TaggedArticle) (store : ArticleStore) (it : NewsItem)
    (hit : it ∈ (buildItems now ldb cat store l).2) :
    ∃ a ∈ l, it.url = a.url := by
  induction l generalizing store with
  | nil => simp [buildItems] at hit
  | cons b rest ih =>
    rw [buildItems_cons] at hit
    rcases List.mem_cons.mp hit with h1 | h2
    · exact ⟨b, List.mem_cons_self b rest, by subst h1; rfl⟩
    · obtain ⟨a, hal, hau⟩ := ih (newsUpsert now ldb cat store b).1 h2
      exact ⟨a, List.mem_cons_of_mem b hal, hau⟩

/-- A key hit by at least one upsert of a batch whose records are all tagged
with the upstream category api ends up holding a record whose categories
array contains the front-end category mapped from api. -/
theorem buildItems_store_mem (now : Nat) (ldb : LikesDB) (cat : String)
    (api c : String) (hrev : reverseMap api = some c)
    (l : List TaggedArticle) (store : ArticleStore) (k : String)
    (hhit : ∃ a ∈ l, makeIdFromUrl now a.url = k)
    (hapi : ∀ a ∈ l, a.apiCategory = api) :
    ∃ m cs, alookup (buildItems now ldb cat store l).1 k = some m ∧
      m.categories = some cs ∧ c ∈ cs := by
  induction l generalizing store k with
  | nil =>
    obtain ⟨a, ha, _⟩ := hhit
    simp at ha
  | cons a rest ih =>
    by_cases hrest : ∃ b ∈ rest, makeIdFromUrl now b.url = k
    · rw [buildItems_cons]
      exact ih (newsUpsert now ldb cat store a).1 k hrest
        (fun x hx => hapi x (List.mem_cons_of_mem a hx))
    · obtain ⟨b, hb, hbk⟩ := hhit
      have hak : makeIdFromUrl now a.url = k := by
        rcases List.mem_cons.mp hb with h1 | h2
        · exact h1 ▸ hbk
        · exact absurd ⟨b, h2, hbk⟩ hrest
      rw [buildItems_cons]
      push_neg at hrest
      rw [buildItems_store_untouched now ldb cat rest _ k hrest]
      subst hak
      have hl : alookup (newsUpsert now ldb cat store a).1
          (makeIdFromUrl now a.url)
          = some (mergeArticle
              ((alookup store (makeIdFromUrl now a.url)).getD emptyStored)
              (makeIdFromUrl now a.url)
              ((reverseMap a.apiCategory).getD "world") a) := by
        simp only [newsUpsert]
        exact alookup_aset_self store _ _
      refine ⟨_, _, hl, rfl, ?_⟩
      rw [hapi a (List.mem_cons_self a rest), hrev]
      exact (mem_dedupFirst c [] _).mpr ⟨by simp, by simp⟩

/-- C10: in the aggregate news listing every upstream record with a missing
or empty URL is dropped before the catalog upsert phase (every record that
reaches cataloguing, and every returned item, has a non-empty URL), while a
single-category listing retains a URL-less record in its filtered item set
under the synthetic local id. -/
theorem C10_urlless_records (fetch : Fetcher) (now : Nat) (ldb : LikesDB)
    (store : ArticleStore) (page pageSize : Nat) (category api : String)
    (arts : List RawArticle) (r : RawArticle)
    (hcat : categoryMap category = some api)
    (hrev : reverseMap api = some category)
    (hok : fetch api = .ok arts) (hr : r ∈ arts) (hru : r.url = "") :
    (∀ a ∈ newsProcessed fetch, a.url ≠ "") ∧
    (∀ it ∈ (apiNews fetch now ldb store "news" page pageSize).1.items,
      it.url ≠ "") ∧
    (∃ st items, newsPipeline fetch now ldb store category
        = some (st, items) ∧
      ∃ it ∈ filterByCategory category st items,
        it.id = "local_" ++ toString now ∧ it.url = "") := by
  have hproc : ∀ a ∈ newsProcessed fetch, a.url ≠ "" :=
    fun a ha => (mem_dedupByUrl a [] _ ha).2.2
  have hne : category ≠ "news" := by
    intro h
    rw [h] at hcat
    simp [categoryMap] at hcat
  refine ⟨hproc, ?_, ?_⟩
  · intro it hit
    have happ : (apiNews fetch now ldb store "news" page pageSize).1
        = paginateItems page pageSize
            (buildItems now ldb "news" store (newsProcessed fetch)).2 := by
      simp [apiNews, newsPipeline, filterByCategory]
    rw [happ, paginateItems_items] at hit
    have hit2 : it ∈ (buildItems now ldb "news" store
        (newsProcessed fetch)).2 :=
      List.Sublist.mem hit
        ((List.take_sublist _ _).trans (List.drop_sublist _ _))
    obtain ⟨a, hal, hau⟩ := buildItems_item_src now ldb "news"
      (newsProcessed fetch) store it hit2
    rw [hau]
    exact hproc a hal
  · have hpipe : newsPipeline fetch now ldb store category
        = some (buildItems now ldb category store
            (arts.map (fun a =>
              { toRawArticle := a, apiCategory := api }))) := by
      simp [newsPipeline, hne, hcat, hok]
    set l := arts.map (fun a =>
      ({ toRawArticle := a, apiCategory := api } : TaggedArticle)) with hl
    refine ⟨(buildItems now ldb category store l).1,
      (buildItems now ldb category store l).2, by rw [hpipe], ?_⟩
    have hrl : ({ toRawArticle := r, apiCategory := api } : TaggedArticle)
        ∈ l := List.mem_map_of_mem _ hr
    obtain ⟨it, hit, hid, hurl⟩ := buildItems_item_of_mem now ldb category
      l store _ hrl
    have hidlocal : it.id = "local_" ++ toString now := by
      rw [hid]
      simp [makeIdFromUrl, hru]
    have hhit : ∃ a ∈ l, makeIdFromUrl now a.url = it.id := ⟨_, hrl, hid.symm⟩
    have hapi : ∀ a ∈ l, a.apiCategory = api := by
      intro a ha
      rw [hl] at ha
      obtain ⟨x, _, hx⟩ := List.mem_map.mp ha
      rw [← hx]
    obtain ⟨m, cs, hm, hmc, hccs⟩ := buildItems_store_mem now ldb category
      api category hrev l store it.id hhit hapi
    refine ⟨it, ?_, hidlocal, by rw [hurl, hru]⟩
    rw [filterByCategory, if_neg hne]
    refine List.mem_filter.mpr ⟨hit, ?_⟩
    simp only [hm, hmc]
    exact List.elem_eq_true_of_mem hccs

/-- The FeedSource used to witness the single-category retention of a
URL-less record. -/
def noUrlFetcher : Fetcher := fun c =>
  if c = "technology" then .ok [⟨"NoUrl", "d", "", "", 0, "s"⟩]
  else .error "down"

/-- C10 witness: a URL-less record fetched for the tech category survives the
category filter under the synthetic local id. -/
theorem C10_urlless_records_witness :
    ∃ st items, newsPipeline noUrlFetcher 9 [] [] "tech"
        = some (st, items) ∧
      ∃ it ∈ filterByCategory "tech" st items,
        it.id = "local_" ++ toString 9 ∧ it.url = "" :=
  (C10_urlless_records noUrlFetcher 9 [] [] 1 10 "tech" "technology"
    [⟨"NoUrl", "d", "", "", 0, "s"⟩] ⟨"NoUrl", "d", "", "", 0, "s"⟩
    rfl rfl rfl (List.mem_cons_self _ _) rfl).2.2

/-- C6: like toggles strictly alternate: a toggle removes the user and
decrements the count (returning liked=false) when the user is in the set,
otherwise adds the user and increments the count (returning liked=true).
From a consistent record the count always equals the set size after any
number of toggles; the save/load persistence round trip restores the record
exactly; an even number of toggles by a user outside the set restores the
baseline exactly and an odd number leaves the user in the set with the count
one above baseline and the last response liked=true. -/
theorem C6_toggle_alternation (r : LikeRecord) (u : String)
    (hinv : likeInv r) (hu : u ∉ r.users) :
    (∀ s : LikeRecord, u ∈ s.users →
      toggleLike u s = (⟨s.count - 1, s.users.erase u⟩, s.count - 1, false)) ∧
    (∀ s : LikeRecord, u ∉ s.users →
      toggleLike u s = (⟨s.count + 1, s.users ++ [u]⟩, s.count + 1, true)) ∧
    (∀ n, likeInv (toggleIter u n r)) ∧
    loadLike (saveLike r) = r ∧
    (∀ n, toggleIter u (2 * n) r = r) ∧
    (∀ n, toggleIter u (2 * n + 1) r = ⟨r.count + 1, r.users ++ [u]⟩ ∧
      (toggleLike u (toggleIter u (2 * n) r)).2 = (r.count + 1, true)) := by
  refine ⟨?_, ?_, ?_, ?_, toggleIter_even u r hu, ?_⟩
  · intro s hm
    simp [toggleLike, hm]
  · intro s hm
    simp [toggleLike, hm]
  · intro n
    induction n with
    | zero => exact hinv
    | succ k ih => exact toggleLike_inv u _ ih
  · simp only [loadLike, saveLike]
    rw [dedupFirst_of_nodup r.users [] hinv.1 (by simp)]
  · intro n
    constructor
    · rw [toggleIter, toggleIter_even u r hu n]
      simp [toggleLike, hu]
    · rw [toggleIter_even u r hu n]
      simp [toggleLike, hu]

/-- C6 witness: the toggle theorem applied to a concrete baseline record. -/
theorem C6_toggle_alternation_witness :
    likeInv ⟨1, ["alice"]⟩ ∧
    toggleIter "bob" (2 * 1) ⟨1, ["alice"]⟩ = ⟨1, ["alice"]⟩ ∧
    toggleIter "bob" (2 * 0 + 1) ⟨1, ["alice"]⟩
      = ⟨1 + 1, ["alice"] ++ ["bob"]⟩ :=
  ⟨by decide,
   (C6_toggle_alternation ⟨1, ["alice"]⟩ "bob" (by decide)
     (by decide)).2.2.2.2.1 1,
   ((C6_toggle_alternation ⟨1, ["alice"]⟩ "bob" (by decide)
     (by decide)).2.2.2.2.2 0).1⟩

/-- A second read of the comments changes nothing: upgrading is idempotent. -/
theorem upgradeComment_idem (aid : String) (c : StoredComment) :
    upgradeComment aid (upgradeComment aid c) = upgradeComment aid c := by
  cases h : c.id <;> simp [upgradeComment, h]

/-- C1: the comment-creation route performs no maximum-length validation: a
300-character text and a 301-character text are both accepted (the route
rejects only empty-after-trim text; the 300-character bound exists only in
the browser client, app.js line 692). -/
theorem C1_addComment_no_length_check :
    (∃ c, (addComment "art1" (some "alice")
        (String.mk (List.replicate 300 'a')) "2024-01-01T00:00:00Z" []).1
        = .ok c) ∧
    (∃ c, (addComment "art1" (some "alice")
        (String.mk (List.replicate 301 'a')) "2024-01-01T00:00:00Z" []).1
        = .ok c) :=
  ⟨⟨_, rfl⟩, ⟨_, rfl⟩⟩

/-- C2 counterexample: a legacy comment (no id, no likedBy) whose legacy plain
count is 5 reports like count 0 after the upgrading first read: the legacy
count is not preserved as the baseline of the reported count. -/
theorem C2_legacy_count_lost :
    ((listComments "art1" none
        [⟨none, "alice", "hello", "2024-01-01T00:00:00Z", none, 5⟩]).1.map
      CommentView.likes) = [0] ∧ (0 : Nat) ≠ 5 := by
  exact ⟨rfl, by decide⟩

/-- C2 (amended): the first read upgrades a legacy comment in place, giving it
a stable id derived deterministically from articleId|username|createdAt|text
and an initialized likedBy array; a second read changes nothing.  The
reported like count of the upgraded comment is the size of its (empty)
likedBy array, i.e. 0 - the legacy plain count is reported only for comments
that already have an id but no likedBy array. -/
theorem C2_legacy_upgrade (aid : String) (v v' : Option String)
    (stored : List StoredComment) (c : StoredComment)
    (hid : c.id = none) (hlb : c.likedBy = none) :
    (listComments aid v stored).2 = stored.map (upgradeComment aid) ∧
    (upgradeComment aid c).id = some (sha1Hex (aid ++ "|" ++ c.username ++
      "|" ++ c.createdAt ++ "|" ++ c.text)) ∧
    (upgradeComment aid c).likedBy = some [] ∧
    (listComments aid v' (listComments aid v stored).2).2
      = (listComments aid v stored).2 ∧
    (viewComment v (upgradeComment aid c)).likes = 0 ∧
    (∀ c' : StoredComment, c'.likedBy = none → ∀ s, c'.id = some s →
      (viewComment v (upgradeComment aid c')).likes = c'.likes) := by
  refine ⟨rfl, ?_, ?_, ?_, ?_, ?_⟩
  · simp [upgradeComment, hid]
  · simp [upgradeComment, hid, hlb]
  · simp only [listComments]
    simp [List.map_map, Function.comp, upgradeComment_idem]
  · simp [viewComment, upgradeComment, hid, hlb]
  · intro c' hlb' s hid'
    simp [viewComment, upgradeComment, hid', hlb']

/-- C2 witness: the amended theorem applied to a concrete legacy comment. -/
theorem C2_legacy_upgrade_witness :
    (upgradeComment "art1" ⟨none, "alice", "hi", "t0", none, 5⟩).likedBy
      = some [] ∧
    (viewComment (some "bob")
      (upgradeComment "art1" ⟨none, "alice", "hi", "t0", none, 5⟩)).likes = 0 :=
  ⟨(C2_legacy_upgrade "art1" (some "bob") none []
      ⟨none, "alice", "hi", "t0", none, 5⟩ rfl rfl).2.2.1,
   (C2_legacy_upgrade "art1" (some "bob") none []
      ⟨none, "alice", "hi", "t0", none, 5⟩ rfl rfl).2.2.2.2.1⟩

/-- C4: the GET comments route returns comments in stored (insertion) order,
i.e. oldest first: after posting a comment at an earlier timestamp and then
one at a later timestamp, the route returns the earlier comment first, so the
listing is not newest-first. -/
theorem C4_comments_oldest_first :
    ((listComments "a1" none
        ((addComment "a1" (some "uu") "second" "2024-02-02T00:00:00Z"
          ((addComment "a1" (some "uu") "first" "2024-01-01T00:00:00Z"
            []).2)).2)).1.map CommentView.createdAt)
      = ["2024-01-01T00:00:00Z", "2024-02-02T00:00:00Z"] := by
  rfl

end INewsFlow
